import Mathlib

/-!
Verification development for the blender-asset-manager packer
(src/packer/packer.py).  The Python source is shallowly embedded:
paths and record names are byte strings, modelled as lists of
characters; the stateful generator visit_from_blend is modelled as a
fuel-indexed function producing a list of events; fallible operations
return Except.
-/

/-- Byte strings (Python bytes). -/
abbrev Bytes := List Char

namespace Packer

/-! ## Path utilities (os.path, posix flavour, over bytes) -/

/-- The characters after the last occurrence of c (whole string if c
is absent).  This is the value of both p.split(c)[-1] and
p[p.rfind(c)+1:] in Python. -/
def afterLastChar (c : Char) (l : Bytes) : Bytes :=
  (l.reverse.takeWhile (fun x => x ≠ c)).reverse

/-- os.path.basename for posix paths: the part after the last '/'. -/
def osBasename (p : Bytes) : Bytes :=
  afterLastChar '/' p

/-- os.path.dirname for posix paths. -/
def osDirname (p : Bytes) : Bytes :=
  let base := afterLastChar '/' p
  let head := p.take (p.length - base.length)
  if head.isEmpty then head
  else if head.all (fun c => c = '/') then head
  else (head.reverse.dropWhile (fun c => c = '/')).reverse

/-- os.path.join for posix paths, two arguments: if b is absolute it
wins; otherwise b is appended to a, inserting '/' unless a is empty or
already ends with '/'. -/
def osJoin (a b : Bytes) : Bytes :=
  if b.head? = some '/' then b
  else if a.isEmpty ∨ a.getLast? = some '/' then a ++ b
  else a ++ '/' :: b

/-- os.path.abspath.  All paths fed to the walker in this program are
already absolute and normalized (pack is invoked on absolute paths and
recursion resolves library paths against an absolute basedir), so
abspath is the identity on them. -/
def osAbspath (p : Bytes) : Bytes := p

/-- Test for the two-character relative marker b'//'
(path.startswith(b'//')). -/
def startsSlashSlash : Bytes → Bool
  | '/' :: '/' :: _ => true
  | _ => false

/-- utils.abspath (packer.py lines 305-312): a path starting with the
relative marker b'//' is resolved by os.path.join of the start
directory and the marker-stripped remainder; any other path is
returned unchanged. -/
def utils_abspath (path start : Bytes) : Bytes :=
  if startsSlashSlash path then osJoin start (path.drop 2) else path

/-! ## pack's per-reference processing (packer.py lines 357-367) -/

/-- path_rel.split(b"\\")[-1].split(b"/")[-1]: the basename used by
pack, splitting on both slash conventions. -/
def packBase (p : Bytes) : Bytes :=
  afterLastChar '/' (afterLastChar '\\' p)

/-- Specification-side definition for comparison: the suffix of p
after the last occurrence of either slash character. -/
def lastSlashComponent (p : Bytes) : Bytes :=
  (p.reverse.takeWhile (fun c => c ≠ '/' ∧ c ≠ '\\')).reverse

/-- pack's loop body for one yielded PathReference (packer.py lines
357-367): given the destination directory, the reference's bound
directory and its current stored path value, returns
(the value written back into the blend, the copy-plan source path,
the copy-plan destination path). -/
def processReference (baseDirDst basedir pathRel : Bytes) :
    Bytes × Bytes × Bytes :=
  let pathBase := packBase pathRel
  let pathSrc := utils_abspath pathRel basedir
  let pathDst := osJoin baseDirDst pathBase
  ('/' :: '/' :: pathBase, pathSrc, pathDst)

/-! ## pack's staging-copy hook (packer.py lines 334-343) -/

/-- State threaded through temp_remap_cb: the set of staging paths
already created (path_temp_files, kept as a duplicate-free list) and
the shutil.copy calls performed so far, in order. -/
structure TempState where
  tempFiles : List Bytes
  copies : List (Bytes × Bytes)
deriving DecidableEq

/-- pack.temp_remap_cb (packer.py lines 334-343): the staging path is
destination-directory/basename + b'@'; the original is copied there
only the first time that staging path is requested. -/
def temp_remap_cb (baseDirDst : Bytes) (st : TempState) (filepath : Bytes) :
    Bytes × TempState :=
  let filepathTmp := osJoin baseDirDst (osBasename filepath) ++ ['@']
  if filepathTmp ∈ st.tempFiles then (filepathTmp, st)
  else (filepathTmp,
        ⟨st.tempFiles ++ [filepathTmp], st.copies ++ [(filepath, filepathTmp)]⟩)

/-- The path returned by temp_remap_cb, which does not depend on the
hook's state. -/
def packRemapPath (baseDirDst p : Bytes) : Bytes :=
  osJoin baseDirDst (osBasename p) ++ ['@']

/-! ## pack's finalization (packer.py lines 371-387) -/

/-- Observable filesystem actions of pack's finalization. -/
inductive PackEv where
  | movedRoot (dst : Bytes)
  | warnMissing (src : Bytes)
  | copied (src dst : Bytes)
deriving DecidableEq

/-- The copy loop (packer.py lines 380-385): each plan entry whose
source exists is copied; a missing source produces one warning and is
skipped. -/
def copyLoop (exists0 : Bytes → Bool) : List (Bytes × Bytes) → List PackEv
  | [] => []
  | (src, dst) :: rest =>
    (if exists0 src then PackEv.copied src dst else PackEv.warnMissing src)
      :: copyLoop exists0 rest

/-- pack's tail (packer.py lines 371-387): the root staging copy is
moved to the destination path (lines 372-374) before the copy loop
runs; the '@'-stripping moves of remaining staged libraries (376-378)
touch only the destination directory and are not modelled. -/
def packFinish (exists0 : Bytes → Bool) (blendfileDst : Bytes)
    (plan : List (Bytes × Bytes)) : List PackEv :=
  PackEv.movedRoot blendfileDst :: copyLoop exists0 plan

/-! ## Block-store data model (interface of the external blendfile
module, §6 of the spec, as consumed by packer.py) -/

/-- A decoded top-level record (non-ID): its type code (block.code),
its name (block[b'id.name'], the key used by block_codes and
expand_codes), the value of its path field block[b'name'] (meaningful
for IM and LI records), and the records its expansion rule reaches,
pre-resolved by the block store to indices into the owning file's
block list: dataPtr is the target of block.get_pointer(b'data') for
objects (none models a null pointer), gobjs are the targets of
gobj.get_pointer(b'ob') over the group's member list. -/
structure Block where
  code : Bytes
  idName : Bytes
  pathVal : Bytes
  dataPtr : Option Nat := none
  gobjs : List Nat := []
deriving DecidableEq

/-- A decoded file: its top-level blocks in store order, and, for each
ID block (a library placeholder), the pair
(lib[b'name'] of the library record found at block[b'lib'],
block[b'name']), in store order.  The offset chasing
blend.find_block_from_offset(block[b'lib']) is performed by the block
store; the model carries its result. -/
structure BFile where
  blocks : List Block
  links : List (Bytes × Bytes)
deriving DecidableEq

/-- Sets of record names (Python set objects; only membership,
difference and union are used, never iteration order). -/
abbrev NameSet := Finset Bytes

/-- lib_visit: mapping from a library's absolute path to the set of
record names already followed (packer.py line 186).  Modelled as an
association list to keep dict key-insertion order. -/
abbrev Registry := List (Bytes × NameSet)

def regGet (r : Registry) (p : Bytes) : NameSet :=
  match r.find? (fun e => e.1 = p) with
  | some e => e.2
  | none => ∅

def regSet (r : Registry) (p : Bytes) (s : NameSet) : Registry :=
  if r.any (fun e => e.1 = p) then
    r.map (fun e => if e.1 = p then (p, s) else e)
  else r ++ [(p, s)]

/-- lib_all: dict from library path to the set of block names this
file references from it, keys in insertion order (packer.py line
169). -/
abbrev LibTable := List (Bytes × NameSet)

/-- lib_all.setdefault(libPath, set()).add(name). -/
def libAllAdd (m : LibTable) (libPath name : Bytes) : LibTable :=
  match m with
  | [] => [(libPath, {name})]
  | (q, s) :: rest =>
    if q = libPath then (q, insert name s) :: rest
    else (q, s) :: libAllAdd rest libPath name

/-! ## Expansion (packer.py lines 87-127 and 255-294) -/

/-- The records yielded by ExpandID.expand_funcs for a block, resolved
against the owning file; none means the block's code has no entry in
expand_funcs (packer.py line 101: fn is None).  expand_OB yields the
object's data pointer (skipped when null, line 104); expand_ME prints
the material array but yields nothing (lines 264-275, see
expand_ME_run below); expand_MA and expand_TE yield nothing;
expand_GR yields the member objects. -/
def expandKids (f : BFile) (b : Block) : Option (List Block) :=
  if b.code = "OB".toList then some (b.dataPtr.bind (f.blocks[·]?)).toList
  else if b.code = "ME".toList then some []
  else if b.code = "MA".toList then some []
  else if b.code = "TE".toList then some []
  else if b.code = "GR".toList then some (b.gobjs.filterMap (f.blocks[·]?))
  else none

/-- block_expand (packer.py lines 97-107) applied in sequence to a
list of blocks, threading the per-call expand_codes set: a block whose
id.name is new is yielded and its expansion children are expanded
recursively; a block already in the set is yielded without
descending.  Fuel bounds the recursion depth; exhaustion is an
error, never a silent truncation. -/
def blockExpandList (f : BFile) : Nat → NameSet → List Block →
    Except String (NameSet × List Block)
  | _, ec, [] => Except.ok (ec, [])
  | 0, _, _ :: _ => Except.error "expansion recursion limit"
  | Nat.succ fuel, ec, b :: bs =>
    let hd : Except String (NameSet × List Block) :=
      if b.idName ∈ ec then Except.ok (ec, [b])
      else
        let ec1 := insert b.idName ec
        match expandKids f b with
        | none => Except.ok (ec1, [b])
        | some kids =>
          match blockExpandList f fuel ec1 kids with
          | Except.error e => Except.error e
          | Except.ok (ec2, out) => Except.ok (ec2, b :: out)
    match hd with
    | Except.error e => Except.error e
    | Except.ok (ec3, out1) =>
      match blockExpandList f fuel ec3 bs with
      | Except.error e => Except.error e
      | Except.ok (ec4, out2) => Except.ok (ec4, out1 ++ out2)

/-! ## The walker (FilePath.visit_from_blend, packer.py lines 53-203) -/

/-- Observable events of one visit_from_blend generator run:
opened records each blendfile.open_blend call (the original path
argument, the actually opened - possibly remapped - path, whether the
mode was r+b, and the block_codes filter of that call); yielded
records each yielded (FilePath, rootdir) pair (the block's code, the
path field name - always b'name' -, the stored path value, the
FilePath's basedir and the rootdir); table records each
lib_all.setdefault(...).add(...) step of the library scan. -/
inductive Ev where
  | opened (orig actual : Bytes) (write : Bool) (filter : Option NameSet)
  | yielded (code field pathVal basedir rootdir : Bytes)
  | table (libPath name : Bytes)
deriving DecidableEq

/-- FilePath.from_block (packer.py lines 210-227) on one block:
asserts the code is not DATA, then emits one PathReference over the
b'name' field for IM and for LI, and nothing for any other code. -/
def fromBlockEvList (basedir rootdir : Bytes) (b : Block) :
    Except String (List Ev) :=
  if b.code = "DATA".toList then
    Except.error "AssertionError: block.code != DATA"
  else if b.code = "IM".toList ∨ b.code = "LI".toList then
    Except.ok [Ev.yielded b.code "name".toList b.pathVal basedir rootdir]
  else Except.ok []

/-- from_block over a list of blocks, concatenating emissions. -/
def fromBlocksEvs (basedir rootdir : Bytes) : List Block →
    Except String (List Ev)
  | [] => Except.ok []
  | b :: bs =>
    match fromBlockEvList basedir rootdir b with
    | Except.error e => Except.error e
    | Except.ok evs1 =>
      match fromBlocksEvs basedir rootdir bs with
      | Except.error e => Except.error e
      | Except.ok evs2 => Except.ok (evs1 ++ evs2)

/-- The scan-loop filter (packer.py lines 140-150): a code is scanned
iff it has length 2 and is none of LI, ID, WM, SN. -/
def scanCodeOk (code : Bytes) : Bool :=
  code.length = 2 &&
  !(code = "LI".toList ∨ code = "ID".toList ∨
    code = "WM".toList ∨ code = "SN".toList)

/-- blend.code_index.keys(): the distinct block codes in first-seen
order. -/
def firstDedup (l : List Bytes) : List Bytes :=
  l.foldl (fun acc c => if c ∈ acc then acc else acc ++ [c]) []

/-- iter_blocks_id(code) followed by from_block on every produced
block (packer.py lines 113-120 and 153-154, also used for LI at line
172), threading the optional expand_codes set: with no block_codes
every block of the code is visited plainly; with block_codes but no
expand_codes (level 0) the blocks are filtered by id.name; with both,
each filtered block runs through block_expand. -/
def scanOne (f : BFile) (blockCodes : Option NameSet) (ec : Option NameSet)
    (basedir rootdir : Bytes) (code : Bytes) :
    Except String (Option NameSet × List Ev) :=
  match blockCodes with
  | none =>
    match fromBlocksEvs basedir rootdir
        (f.blocks.filter (fun b => b.code = code)) with
    | Except.error e => Except.error e
    | Except.ok evs => Except.ok (ec, evs)
  | some s =>
    let sel := f.blocks.filter (fun b => b.code = code ∧ b.idName ∈ s)
    match ec with
    | none =>
      match fromBlocksEvs basedir rootdir sel with
      | Except.error e => Except.error e
      | Except.ok evs => Except.ok (none, evs)
    | some e0 =>
      match blockExpandList f ((f.blocks.length + 1) * (f.blocks.length + 2)) e0 sel with
      | Except.error e => Except.error e
      | Except.ok (e1, out) =>
        match fromBlocksEvs basedir rootdir out with
        | Except.error e => Except.error e
        | Except.ok evs => Except.ok (some e1, evs)

/-- The main scan loop (packer.py lines 138-154) over a list of
codes, threading expand_codes and concatenating emissions. -/
def scanAll (f : BFile) (blockCodes : Option NameSet) (basedir rootdir : Bytes) :
    Option NameSet → List Bytes → Except String (Option NameSet × List Ev)
  | ec, [] => Except.ok (ec, [])
  | ec, c :: cs =>
    match scanOne f blockCodes ec basedir rootdir c with
    | Except.error e => Except.error e
    | Except.ok (ec1, evs1) =>
      match scanAll f blockCodes basedir rootdir ec1 cs with
      | Except.error e => Except.error e
      | Except.ok (ec2, evs2) => Except.ok (ec2, evs1 ++ evs2)

/-- iter_blocks_lib() (packer.py lines 122-127): all ID-block link
entries, or only those whose name is in expand_codes. -/
def libLinksSel (f : BFile) (ec : Option NameSet) : List (Bytes × Bytes) :=
  match ec with
  | none => f.links
  | some e => f.links.filter (fun ln => ln.2 ∈ e)

/-- The library scan (packer.py lines 158-169): group the selected
link entries into lib_all. -/
def libTableOf (f : BFile) (ec : Option NameSet) : LibTable :=
  (libLinksSel f ec).foldl (fun m ln => libAllAdd m ln.1 ln.2) []

/-- Apply the optional remap hook (packer.py lines 130-133). -/
def remapApply (remap : Option (Bytes → Bytes)) (p : Bytes) : Bytes :=
  match remap with
  | some cb => cb p
  | none => p

/-- The recursion loop over lib_all.items() (packer.py lines
181-203): resolve the library path against basedir, subtract the
names already in lib_visit, record the remainder, and recurse -
unconditionally (no emptiness check), through the nested-visit
callback visitN.  In visit below, visitN does not receive the
registry: the Python recursive call omits lib_visit. -/
def visitLibs (basedir : Bytes)
    (visitN : Bytes → NameSet → Except String (List Ev)) :
    Registry → LibTable → Except String (Registry × List Ev)
  | reg, [] => Except.ok (reg, [])
  | reg, (libPath, names) :: rest =>
    let libPathAbs := utils_abspath libPath basedir
    let existing := regGet reg libPathAbs
    let remaining := names \ existing
    let reg1 := regSet reg libPathAbs (existing ∪ remaining)
    match visitN libPathAbs remaining with
    | Except.error e => Except.error e
    | Except.ok evs1 =>
      match visitLibs basedir visitN reg1 rest with
      | Except.error e => Except.error e
      | Except.ok (reg2, evs2) => Except.ok (reg2, evs1 ++ evs2)

/-- FilePath.visit_from_blend (packer.py lines 53-203).  The
filesystem fs maps a path to its decoded file; remap is
temp_remap_cb (pure: the staging path it returns does not depend on
its state, see temp_remap_cb_fst); ro is the readonly flag;
blockCodes, rootdirOpt, level and libVisit mirror the Python
parameters (libVisit none is Python lib_visit=None - note the
recursive call at lines 195-203 does not pass lib_visit, so nested
calls always receive none).  Fuel bounds recursion depth; a run out
of fuel is an error.  Returns the events of the whole run. -/
def visit (fs : Bytes → Option BFile) (remap : Option (Bytes → Bytes))
    (ro : Bool) :
    Nat → Bytes → Bool → Option NameSet → Option Bytes → Nat →
    Option Registry → Except String (List Ev)
  | 0, _, _, _, _, _, _ => Except.error "recursion limit"
  | Nat.succ fuel, filepath, recursive, blockCodes, rootdirOpt, level,
    libVisit =>
    let basedir := osDirname (osAbspath filepath)
    let rootdir := rootdirOpt.getD basedir
    let filepathTmp := remapApply remap filepath
    match fs filepathTmp with
    | none => Except.error "IOError: open_blend failed"
    | some f =>
      let expandMode := recursive && decide (0 < level) && blockCodes.isSome
      let ec0 : Option NameSet := if expandMode then some ∅ else none
      let codes := (firstDedup (f.blocks.map Block.code)).filter scanCodeOk
      match scanAll f blockCodes basedir rootdir ec0 codes with
      | Except.error e => Except.error e
      | Except.ok (ec1, scanEvs) =>
        let libAll : LibTable := if recursive then libTableOf f ec1 else []
        let tableEvs : List Ev :=
          if recursive then
            (libLinksSel f ec1).map (fun ln => Ev.table ln.1 ln.2)
          else []
        match scanOne f blockCodes ec1 basedir rootdir "LI".toList with
        | Except.error e => Except.error e
        | Except.ok (_, liEvs) =>
          -- blend.close(); then the recursive section (lines 179-203)
          if recursive then
            match libVisit with
            | none =>
              if libAll.isEmpty then
                Except.ok (Ev.opened filepath filepathTmp (!ro) blockCodes ::
                  scanEvs ++ tableEvs ++ liEvs)
              else
                -- lib_visit is None but line 186 calls .setdefault on it
                Except.error
                  "AttributeError: NoneType object has no attribute setdefault"
            | some reg0 =>
              match visitLibs basedir
                  (fun p remaining =>
                    visit fs remap ro fuel p true (some remaining)
                      (some rootdir) (level + 1) none)
                  reg0 libAll with
              | Except.error e => Except.error e
              | Except.ok (_, recEvs) =>
                Except.ok (Ev.opened filepath filepathTmp (!ro) blockCodes ::
                  scanEvs ++ tableEvs ++ liEvs ++ recEvs)
          else
            Except.ok (Ev.opened filepath filepathTmp (!ro) blockCodes ::
              scanEvs ++ tableEvs ++ liEvs)

/-! ## The mesh expansion rule in detail
(ExpandID.expand_ME, packer.py lines 264-275, and bf_utils.iter_array,
lines 238-249) -/

/-- The DATA block holding a pointer array, as returned by
block.get_pointer(b'mat'): its code and its file_offset. -/
structure DataBlock where
  code : Bytes
  file_offset : Nat
deriving DecidableEq

/-- The parts of an open block-store file that iter_array reads: the
pointer size from the header, the pointer read at a given absolute
file position (handle.seek + DNA_IO.read_pointer), and
find_block_from_offset (none models an unresolvable address, which
the store maps to no block). -/
structure FileH where
  pointer_size : Nat
  readPointerAt : Nat → Nat
  findBlockFromOffset : Nat → Option Nat

/-- bf_utils.iter_array (packer.py lines 238-249): asserts the block
is a DATA block, then for i in range(length) seeks to
file_offset + pointer_size * i, reads a pointer and resolves it. -/
def iter_array (fh : FileH) (blk : DataBlock) (length : Nat) :
    Except String (List (Option Nat)) :=
  if blk.code ≠ "DATA".toList then
    Except.error "AssertionError: block.code == DATA"
  else
    Except.ok ((List.range length).map (fun i =>
      fh.findBlockFromOffset
        (fh.readPointerAt (blk.file_offset + fh.pointer_size * i))))

/-- A mesh record as read by expand_ME: block.get(b'totcol') and the
DATA block found through block.get_pointer(b'mat') (assumed non-null,
as in any mesh with totcol > 0). -/
structure MeshBlock where
  totcol : Nat
  mat : DataBlock
deriving DecidableEq

/-- ExpandID.expand_ME (packer.py lines 264-275): when totcol is
non-zero it iterates the material array, printing each item; in every
case the generator yields nothing, because the function returns before
its (unreachable) yield statement.  Returns (the items printed, the
blocks yielded). -/
def expand_ME_run (fh : FileH) (b : MeshBlock) :
    Except String (List (Option Nat) × List Nat) :=
  if b.totcol ≠ 0 then
    match iter_array fh b.mat b.totcol with
    | Except.error e => Except.error e
    | Except.ok items => Except.ok (items, [])
  else Except.ok ([], [])

/-! ## Concrete fixtures used by counterexamples and witnesses -/

/-- A file that links record GRg from library //B.blend (its only
content relevant to the walker is the ID placeholder link). -/
def fileA : BFile :=
  { blocks := [], links := [("//B.blend".toList, "GRg".toList)] }

/-- The library B: a group GRg whose member list reaches the ID
placeholder OBo, itself linked from //A.blend - together with fileA a
cyclic library graph. -/
def fileB : BFile :=
  { blocks := [
      { code := "GR".toList, idName := "GRg".toList, pathVal := [],
        gobjs := [1] },
      { code := "ID".toList, idName := "OBo".toList, pathVal := [] }],
    links := [("//A.blend".toList, "OBo".toList)] }

/-- Filesystem for the cyclic scenario, keyed at the staging paths
pack's remap hook produces for destination directory /dst. -/
def fsAB : Bytes → Option BFile := fun p =>
  if p = "/dst/A.blend@".toList then some fileA
  else if p = "/dst/B.blend@".toList then some fileB
  else none

/-- A root file that references the same library record MAm through
two spellings of the library path - relative (//lib.blend) and
absolute (/base/lib.blend) - which resolve to the same absolute
path. -/
def fileA2 : BFile :=
  { blocks := [],
    links := [("//lib.blend".toList, "MAm".toList),
              ("/base/lib.blend".toList, "MAm".toList)] }

/-- The library holding material MAm; it has no links of its own. -/
def fileLib : BFile :=
  { blocks := [{ code := "MA".toList, idName := "MAm".toList,
                 pathVal := [] }],
    links := [] }

/-- Filesystem for the duplicate-spelling scenario (no remap hook). -/
def fsC2 : Bytes → Option BFile := fun p =>
  if p = "/base/A.blend".toList then some fileA2
  else if p = "/base/lib.blend".toList then some fileLib
  else none

/-- The FileH used by the mesh-expansion fixtures: pointers read back
their own address and every address resolves to the block numbered by
it. -/
def fhC3 : FileH :=
  { pointer_size := 8,
    readPointerAt := fun a => a,
    findBlockFromOffset := fun o => some o }

/-- A mesh with two materials: totcol = 2, material array DATA block
at file offset 40. -/
def meC3 : MeshBlock :=
  { totcol := 2, mat := { code := "DATA".toList, file_offset := 40 } }

/-- A mesh with no materials. -/
def meC3zero : MeshBlock :=
  { totcol := 0, mat := { code := "DATA".toList, file_offset := 40 } }

/-- Boolean event classifiers. -/
def evNonLIYield (e : Ev) : Bool :=
  match e with
  | Ev.yielded c _ _ _ _ => c ≠ "LI".toList
  | _ => false

def evLIYield (e : Ev) : Bool :=
  match e with
  | Ev.yielded c _ _ _ _ => c = "LI".toList
  | _ => false

def evTable (e : Ev) : Bool :=
  match e with
  | Ev.table _ _ => true
  | _ => false

def evIsYield (e : Ev) : Bool :=
  match e with
  | Ev.yielded _ _ _ _ _ => true
  | _ => false

/-- The record code of a yielded event. -/
def evCode (e : Ev) : Option Bytes :=
  match e with
  | Ev.yielded c _ _ _ _ => some c
  | _ => none

/-- Well-formedness of a decoded file: no expansion rule reaches a
library-link record (object data pointers and group members are never
LI blocks).  Holds for every well-formed blend file. -/
def kidsNotLI (f : BFile) : Bool :=
  f.blocks.all (fun b =>
    ((expandKids f b).getD []).all (fun k => k.code ≠ "LI".toList))

/-- The walker run of the duplicate-spelling scenario, invoked the
way pack invokes it at the top level (recursive, no filter, a fresh
registry), with the read-only default and no remap hook. -/
def visitC2run : Except String (List Ev) :=
  visit fsC2 none true 10 "/base/A.blend".toList true none none 0 (some [])

/-- The events of that run. -/
def evsC2 : List Ev := visitC2run.toOption.getD []

/-- Filesystem for the C4 witness: one root file staged by the hook
into /dst. -/
def fsC4w : Bytes → Option BFile := fun p =>
  if p = "/dst/root.blend@".toList then some fileLib else none

/-- The C4 witness run: pack-style invocation with the /dst staging
hook. -/
def visitC4run : Except String (List Ev) :=
  visit fsC4w (some (packRemapPath "/dst".toList)) false 3
    "/src/root.blend".toList true none none 0 (some [])

def evsC4w : List Ev := visitC4run.toOption.getD []

/-- The C2-amended witness run: the recursion loop applied to a
one-pair table over fsC2 with an empty registry. -/
def visitLibsC2run : Except String (Registry × List Ev) :=
  visitLibs "/base".toList
    (fun p rem => visit fsC2 none true 5 p true (some rem)
      (some "/base".toList) 1 none)
    [] [("//lib.blend".toList, {"MAm".toList})]

/-- Its result. -/
def resC2L : Registry × List Ev := visitLibsC2run.toOption.getD ([], [])

/-- Existence predicate for the C6 witness: every path except
/a/missing.png exists. -/
def exC6 : Bytes → Bool := fun p => p ≠ "/a/missing.png".toList

/-- Copy plan for the C6 witness. -/
def planC6 : List (Bytes × Bytes) :=
  [("/a/ok.png".toList, "/d/ok.png".toList),
   ("/a/missing.png".toList, "/d/missing.png".toList)]

/-! # Helper lemmas -/

theorem temp_remap_cb_fst (baseDirDst : Bytes) (st : TempState) (p : Bytes) :
    (temp_remap_cb baseDirDst st p).1 = packRemapPath baseDirDst p := by
  simp only [temp_remap_cb, packRemapPath]
  split <;> rfl

theorem packBase_eq_lastSlashComponent (p : Bytes) :
    packBase p = lastSlashComponent p := by
  simp only [packBase, lastSlashComponent, afterLastChar,
    List.reverse_reverse, List.takeWhile_takeWhile]
  congr 1
  have hpred :
      (fun a : Char => decide (decide (a ≠ '/') = true ∧ decide (a ≠ '\\') = true)) =
      (fun c : Char => decide (c ≠ '/' ∧ c ≠ '\\')) := by
    funext a
    simp [decide_eq_true_eq]
  rw [hpred]

theorem packRemapPath_getLast (baseDirDst p : Bytes) :
    (packRemapPath baseDirDst p).getLast? = some '@' := by
  simp [packRemapPath]

/-- copyLoop maps each plan entry to its copy or its warning. -/
theorem copyLoop_eq_map (exists0 : Bytes → Bool) (plan : List (Bytes × Bytes)) :
    copyLoop exists0 plan = plan.map (fun e =>
      if exists0 e.1 then PackEv.copied e.1 e.2 else PackEv.warnMissing e.1) := by
  induction plan with
  | nil => rfl
  | cons e rest ih =>
    obtain ⟨src, dst⟩ := e
    simp [copyLoop, ih]

/-- For a missing source, the copy loop emits one warning per plan
entry carrying that source. -/
theorem copyLoop_count_warn (exists0 : Bytes → Bool) (src : Bytes)
    (hmiss : exists0 src = false) (plan : List (Bytes × Bytes)) :
    (copyLoop exists0 plan).count (PackEv.warnMissing src) =
      (plan.filter (fun e => e.1 = src)).length := by
  induction plan with
  | nil => rfl
  | cons e rest ih =>
    obtain ⟨s, d⟩ := e
    by_cases hs : s = src
    · subst hs
      simp [copyLoop, hmiss, List.count_cons, ih]
    · by_cases he : exists0 s <;>
        simp [copyLoop, he, List.count_cons, ih, hs,
          List.filter_cons]

theorem fromBlockEvList_shape (bd rd : Bytes) (b : Block) (evs : List Ev)
    (h : fromBlockEvList bd rd b = Except.ok evs) :
    ∀ e ∈ evs, e = Ev.yielded b.code "name".toList b.pathVal bd rd := by
  unfold fromBlockEvList at h
  split at h
  · exact absurd h (by simp)
  · split at h
    · cases h
      intro e he
      simpa using he
    · cases h
      intro e he
      simp at he

theorem fromBlocksEvs_shape (bd rd : Bytes) (l : List Block) (evs : List Ev)
    (h : fromBlocksEvs bd rd l = Except.ok evs) :
    ∀ e ∈ evs, ∃ b ∈ l, e = Ev.yielded b.code "name".toList b.pathVal bd rd := by
  induction l generalizing evs with
  | nil =>
    unfold fromBlocksEvs at h
    cases h
    intro e he
    simp at he
  | cons b bs ih =>
    unfold fromBlocksEvs at h
    cases h1 : fromBlockEvList bd rd b with
    | error err =>
      simp only [h1] at h
      exact absurd h (by simp)
    | ok evs1 =>
      simp only [h1] at h
      cases h2 : fromBlocksEvs bd rd bs with
      | error err =>
        simp only [h2] at h
        exact absurd h (by simp)
      | ok evs2 =>
        simp only [h2] at h
        injection h with h
        subst h
        intro e he
        rcases List.mem_append.mp he with he1 | he2
        · exact ⟨b, List.mem_cons_self b bs,
            fromBlockEvList_shape bd rd b evs1 h1 e he1⟩
        · obtain ⟨b2, hb2, hee⟩ := ih evs2 h2 e he2
          exact ⟨b2, List.mem_cons_of_mem b hb2, hee⟩

theorem expandKids_mem (f : BFile) (b : Block) (ks : List Block)
    (h : expandKids f b = some ks) : ∀ k ∈ ks, k ∈ f.blocks := by
  unfold expandKids at h
  split_ifs at h <;> try (cases h)
  · intro k hk
    rw [Option.mem_toList] at hk
    obtain ⟨i, -, hget⟩ := Option.bind_eq_some.mp (Option.mem_def.mp hk)
    exact List.getElem?_mem hget
  · intro k hk; simp at hk
  · intro k hk; simp at hk
  · intro k hk; simp at hk
  · intro k hk
    obtain ⟨i, -, hget⟩ := List.mem_filterMap.mp hk
    exact List.getElem?_mem hget

theorem expandKids_LI (f : BFile) (b : Block) (h : b.code = "LI".toList) :
    expandKids f b = none := by
  unfold expandKids
  rw [h]
  rw [if_neg (by decide), if_neg (by decide), if_neg (by decide),
    if_neg (by decide), if_neg (by decide)]

theorem blockExpandList_pred (f : BFile) (P : Block → Prop)
    (hclo : ∀ b ∈ f.blocks, P b → ∀ ks, expandKids f b = some ks →
      ∀ k ∈ ks, P k) :
    ∀ fuel ec l ec2 out, blockExpandList f fuel ec l = Except.ok (ec2, out) →
      (∀ b ∈ l, P b ∧ b ∈ f.blocks) → ∀ b ∈ out, P b ∧ b ∈ f.blocks := by
  intro fuel
  induction fuel with
  | zero =>
    intro ec l ec2 out h hl
    cases l with
    | nil =>
      simp only [blockExpandList, Except.ok.injEq, Prod.mk.injEq] at h
      obtain ⟨rfl, rfl⟩ := h
      intro b hb
      simp at hb
    | cons b bs =>
      simp only [blockExpandList] at h
      exact absurd h (by simp)
  | succ fuel ih =>
    intro ec l ec2 out h hl
    cases l with
    | nil =>
      simp only [blockExpandList, Except.ok.injEq, Prod.mk.injEq] at h
      obtain ⟨rfl, rfl⟩ := h
      intro b hb
      simp at hb
    | cons b bs =>
      simp only [blockExpandList] at h
      have hbP : P b ∧ b ∈ f.blocks := hl b (List.mem_cons_self b bs)
      have htail : ∀ ec3 ec4 out1 out2,
          blockExpandList f fuel ec3 bs = Except.ok (ec4, out2) →
          (∀ x ∈ out1, P x ∧ x ∈ f.blocks) → ∀ x ∈ out1 ++ out2,
          P x ∧ x ∈ f.blocks := by
        intro ec3 ec4 out1 out2 htl h1 x hx
        rcases List.mem_append.mp hx with hx1 | hx2
        · exact h1 x hx1
        · exact ih ec3 bs ec4 out2 htl
            (fun y hy => hl y (List.mem_cons_of_mem b hy)) x hx2
      by_cases hmem : b.idName ∈ ec
      · simp only [if_pos hmem] at h
        cases htl : blockExpandList f fuel ec bs with
        | error err =>
          simp only [htl] at h
          exact absurd h (by simp)
        | ok res =>
          obtain ⟨ec4, out2⟩ := res
          simp only [htl, Except.ok.injEq, Prod.mk.injEq] at h
          obtain ⟨rfl, rfl⟩ := h
          exact htail ec ec4 [b] out2 htl
            (by intro x hx; simp at hx; subst hx; exact hbP)
      · simp only [if_neg hmem] at h
        cases hk : expandKids f b with
        | none =>
          simp only [hk] at h
          cases htl : blockExpandList f fuel (insert b.idName ec) bs with
          | error err =>
            simp only [htl] at h
            exact absurd h (by simp)
          | ok res =>
            obtain ⟨ec4, out2⟩ := res
            simp only [htl, Except.ok.injEq, Prod.mk.injEq] at h
            obtain ⟨rfl, rfl⟩ := h
            exact htail _ ec4 [b] out2 htl
              (by intro x hx; simp at hx; subst hx; exact hbP)
        | some kids =>
          simp only [hk] at h
          cases hkid : blockExpandList f fuel (insert b.idName ec) kids with
          | error err =>
            simp only [hkid] at h
            exact absurd h (by simp)
          | ok reskid =>
            obtain ⟨eck, outk⟩ := reskid
            simp only [hkid] at h
            cases htl : blockExpandList f fuel eck bs with
            | error err =>
              simp only [htl] at h
              exact absurd h (by simp)
            | ok res =>
              obtain ⟨ec4, out2⟩ := res
              simp only [htl, Except.ok.injEq, Prod.mk.injEq] at h
              obtain ⟨rfl, rfl⟩ := h
              have hkids : ∀ k ∈ kids, P k ∧ k ∈ f.blocks := fun k hkk =>
                ⟨hclo b hbP.2 hbP.1 kids hk k hkk,
                 expandKids_mem f b kids hk k hkk⟩
              refine htail eck ec4 (b :: outk) out2 htl ?_
              intro x hx
              rcases List.mem_cons.mp hx with rfl | hxk
              · exact hbP
              · exact ih _ kids eck outk hkid hkids x hxk

theorem scanOne_pred (f : BFile) (P : Block → Prop) (bc ec : Option NameSet)
    (bd rd code : Bytes) (ec2 : Option NameSet) (evs : List Ev)
    (hsel : ∀ b ∈ f.blocks, b.code = code → P b)
    (hclo : ∀ b ∈ f.blocks, P b → ∀ ks, expandKids f b = some ks →
      ∀ k ∈ ks, P k)
    (h : scanOne f bc ec bd rd code = Except.ok (ec2, evs)) :
    ∀ e ∈ evs, ∃ b, P b ∧
      e = Ev.yielded b.code "name".toList b.pathVal bd rd := by
  unfold scanOne at h
  cases bc with
  | none =>
    cases hfb : fromBlocksEvs bd rd (f.blocks.filter (fun b => b.code = code)) with
    | error err =>
      simp only [hfb] at h
      exact absurd h (by simp)
    | ok evs1 =>
      simp only [hfb, Except.ok.injEq, Prod.mk.injEq] at h
      obtain ⟨rfl, rfl⟩ := h
      intro e he
      obtain ⟨b, hb, he⟩ := fromBlocksEvs_shape bd rd _ _ hfb e he
      rw [List.mem_filter] at hb
      exact ⟨b, hsel b hb.1 (by simpa using hb.2), he⟩
  | some s =>
    cases ec with
    | none =>
      cases hfb : fromBlocksEvs bd rd
          (f.blocks.filter (fun b => b.code = code ∧ b.idName ∈ s)) with
      | error err =>
        simp only [hfb] at h
        exact absurd h (by simp)
      | ok evs1 =>
        simp only [hfb, Except.ok.injEq, Prod.mk.injEq] at h
        obtain ⟨rfl, rfl⟩ := h
        intro e he
        obtain ⟨b, hb, he⟩ := fromBlocksEvs_shape bd rd _ _ hfb e he
        rw [List.mem_filter] at hb
        have hb2 : b.code = code ∧ b.idName ∈ s := by simpa using hb.2
        exact ⟨b, hsel b hb.1 hb2.1, he⟩
    | some e0 =>
      cases hbx : blockExpandList f ((f.blocks.length + 1) * (f.blocks.length + 2)) e0
          (f.blocks.filter (fun b => b.code = code ∧ b.idName ∈ s)) with
      | error err =>
        simp only [hbx] at h
        exact absurd h (by simp)
      | ok res =>
        obtain ⟨e1, out⟩ := res
        simp only [hbx] at h
        cases hfb : fromBlocksEvs bd rd out with
        | error err =>
          simp only [hfb] at h
          exact absurd h (by simp)
        | ok evs1 =>
          simp only [hfb, Except.ok.injEq, Prod.mk.injEq] at h
          obtain ⟨rfl, rfl⟩ := h
          intro e he
          obtain ⟨b, hb, he⟩ := fromBlocksEvs_shape bd rd _ _ hfb e he
          have hout := blockExpandList_pred f P hclo _ e0 _ e1 out hbx
            (by
              intro x hx
              rw [List.mem_filter] at hx
              have hx2 : x.code = code ∧ x.idName ∈ s := by simpa using hx.2
              exact ⟨hsel x hx.1 hx2.1, hx.1⟩) b hb
          exact ⟨b, hout.1, he⟩

theorem scanAll_pred (f : BFile) (P : Block → Prop) (bc : Option NameSet)
    (bd rd : Bytes)
    (hclo : ∀ b ∈ f.blocks, P b → ∀ ks, expandKids f b = some ks →
      ∀ k ∈ ks, P k) :
    ∀ codes ec ec2 evs, scanAll f bc bd rd ec codes = Except.ok (ec2, evs) →
      (∀ c ∈ codes, ∀ b ∈ f.blocks, b.code = c → P b) →
      ∀ e ∈ evs, ∃ b, P b ∧
        e = Ev.yielded b.code "name".toList b.pathVal bd rd := by
  intro codes
  induction codes with
  | nil =>
    intro ec ec2 evs h hc
    simp only [scanAll, Except.ok.injEq, Prod.mk.injEq] at h
    obtain ⟨rfl, rfl⟩ := h
    intro e he
    simp at he
  | cons c cs ih =>
    intro ec ec2 evs h hc
    simp only [scanAll] at h
    cases h1 : scanOne f bc ec bd rd c with
    | error err =>
      simp only [h1] at h
      exact absurd h (by simp)
    | ok res1 =>
      obtain ⟨ec1, evs1⟩ := res1
      simp only [h1] at h
      cases h2 : scanAll f bc bd rd ec1 cs with
      | error err =>
        simp only [h2] at h
        exact absurd h (by simp)
      | ok res2 =>
        obtain ⟨ecx, evs2⟩ := res2
        simp only [h2, Except.ok.injEq, Prod.mk.injEq] at h
        obtain ⟨rfl, rfl⟩ := h
        intro e he
        rcases List.mem_append.mp he with he1 | he2
        · exact scanOne_pred f P bc ec bd rd c ec1 evs1
            (fun b hb hbc => hc c (List.mem_cons_self c cs) b hb hbc)
            hclo h1 e he1
        · exact ih ec1 ecx evs2 h2
            (fun c2 hc2 => hc c2 (List.mem_cons_of_mem c hc2)) e he2

theorem visitLibs_events (basedir : Bytes)
    (visitN : Bytes → NameSet → Except String (List Ev)) (P : Ev → Prop)
    (hN : ∀ p rem evs1, visitN p rem = Except.ok evs1 → ∀ e ∈ evs1, P e) :
    ∀ table reg r2 evs, visitLibs basedir visitN reg table = Except.ok (r2, evs) →
      ∀ e ∈ evs, P e := by
  intro table
  induction table with
  | nil =>
    intro reg r2 evs h
    simp only [visitLibs, Except.ok.injEq, Prod.mk.injEq] at h
    obtain ⟨rfl, rfl⟩ := h
    intro e he
    simp at he
  | cons pr rest ih =>
    obtain ⟨libPath, names⟩ := pr
    intro reg r2 evs h
    simp only [visitLibs] at h
    cases h1 : visitN (utils_abspath libPath basedir)
        (names \ regGet reg (utils_abspath libPath basedir)) with
    | error err =>
      simp only [h1] at h
      exact absurd h (by simp)
    | ok evs1 =>
      simp only [h1] at h
      cases h2 : visitLibs basedir visitN
          (regSet reg (utils_abspath libPath basedir)
            (regGet reg (utils_abspath libPath basedir) ∪
             (names \ regGet reg (utils_abspath libPath basedir)))) rest with
      | error err =>
        simp only [h2] at h
        exact absurd h (by simp)
      | ok res =>
        obtain ⟨reg2, evs2⟩ := res
        simp only [h2, Except.ok.injEq, Prod.mk.injEq] at h
        obtain ⟨rfl, rfl⟩ := h
        intro e he
        rcases List.mem_append.mp he with he1 | he2
        · exact hN _ _ evs1 h1 e he1
        · exact ih _ reg2 evs2 h2 e he2

theorem visit_ok_decomp (fs : Bytes → Option BFile)
    (remap : Option (Bytes → Bytes)) (ro : Bool) (fuel0 : Nat) (fp : Bytes)
    (rec : Bool) (bc : Option NameSet) (rd : Option Bytes) (lvl : Nat)
    (lv : Option Registry) (evs : List Ev)
    (h : visit fs remap ro (Nat.succ fuel0) fp rec bc rd lvl lv =
      Except.ok evs) :
    ∃ f ec1 ecx scanEvs liEvs recEvs,
      fs (remapApply remap fp) = some f ∧
      scanAll f bc (osDirname (osAbspath fp))
          (rd.getD (osDirname (osAbspath fp)))
          (if rec && decide (0 < lvl) && bc.isSome then some ∅ else none)
          ((firstDedup (f.blocks.map Block.code)).filter scanCodeOk) =
        Except.ok (ec1, scanEvs) ∧
      scanOne f bc ec1 (osDirname (osAbspath fp))
          (rd.getD (osDirname (osAbspath fp))) "LI".toList =
        Except.ok (ecx, liEvs) ∧
      evs = Ev.opened fp (remapApply remap fp) (!ro) bc ::
        (scanEvs ++
         (if rec then (libLinksSel f ec1).map (fun ln => Ev.table ln.1 ln.2)
          else []) ++ liEvs ++ recEvs) ∧
      (recEvs = [] ∨ (∃ reg0 r2, lv = some reg0 ∧
        visitLibs (osDirname (osAbspath fp))
          (fun p remaining => visit fs remap ro fuel0 p true (some remaining)
            (some (rd.getD (osDirname (osAbspath fp)))) (lvl + 1) none)
          reg0 (libTableOf f ec1) = Except.ok (r2, recEvs))) := by
  simp only [visit] at h
  cases hfs : fs (remapApply remap fp) with
  | none =>
    simp only [hfs] at h
    exact absurd h (by simp)
  | some f =>
    simp only [hfs] at h
    cases hscan : scanAll f bc (osDirname (osAbspath fp))
        (rd.getD (osDirname (osAbspath fp)))
        (if rec && decide (0 < lvl) && bc.isSome then some ∅ else none)
        ((firstDedup (f.blocks.map Block.code)).filter scanCodeOk) with
    | error err =>
      simp only [hscan] at h
      exact absurd h (by simp)
    | ok res1 =>
      obtain ⟨ec1, scanEvs⟩ := res1
      simp only [hscan] at h
      cases hli : scanOne f bc ec1 (osDirname (osAbspath fp))
          (rd.getD (osDirname (osAbspath fp))) "LI".toList with
      | error err =>
        simp only [hli] at h
        exact absurd h (by simp)
      | ok res2 =>
        obtain ⟨ecx, liEvs⟩ := res2
        simp only [hli] at h
        cases rec with
        | false =>
          simp only [Bool.false_eq_true, if_false, Except.ok.injEq] at h
          refine ⟨f, ec1, ecx, scanEvs, liEvs, [], rfl, hscan, hli, ?_, Or.inl rfl⟩
          rw [← h]
          simp
        | true =>
          simp only [if_true] at h
          cases lv with
          | none =>
            simp only at h
            by_cases hemp : (libTableOf f ec1).isEmpty
            · simp only [if_pos hemp, Except.ok.injEq] at h
              refine ⟨f, ec1, ecx, scanEvs, liEvs, [], rfl, hscan, hli, ?_,
                Or.inl rfl⟩
              rw [← h]
              simp
            · simp only [if_neg hemp] at h
              exact absurd h (by simp)
          | some reg0 =>
            simp only at h
            cases hlibs : visitLibs (osDirname (osAbspath fp))
                (fun p remaining => visit fs remap ro fuel0 p true
                  (some remaining)
                  (some (rd.getD (osDirname (osAbspath fp)))) (lvl + 1) none)
                reg0 (libTableOf f ec1) with
            | error err =>
              simp only [hlibs] at h
              exact absurd h (by simp)
            | ok res3 =>
              obtain ⟨r2, recEvs⟩ := res3
              simp only [hlibs, Except.ok.injEq] at h
              refine ⟨f, ec1, ecx, scanEvs, liEvs, recEvs, rfl, hscan, hli, ?_,
                Or.inr ⟨reg0, r2, rfl, hlibs⟩⟩
              rw [← h]
              simp

theorem scanCodeOk_ne_LI (c : Bytes) (h : scanCodeOk c = true) :
    c ≠ "LI".toList := by
  unfold scanCodeOk at h
  rw [Bool.and_eq_true] at h
  intro hc
  rw [hc] at h
  exact absurd h.2 (by decide)

theorem visit_ok_head (fs : Bytes → Option BFile)
    (remap : Option (Bytes → Bytes)) (ro : Bool) (fuel : Nat) (fp : Bytes)
    (rec : Bool) (bc : Option NameSet) (rd : Option Bytes) (lvl : Nat)
    (lv : Option Registry) (evs : List Ev)
    (h : visit fs remap ro fuel fp rec bc rd lvl lv = Except.ok evs) :
    evs.head? = some (Ev.opened fp (remapApply remap fp) (!ro) bc) := by
  cases fuel with
  | zero => exact absurd h (by simp [visit])
  | succ fuel0 =>
    obtain ⟨f, ec1, ecx, s, l, r, hfs, hscan, hli, heq, hrec⟩ :=
      visit_ok_decomp fs remap ro fuel0 fp rec bc rd lvl lv evs h
    rw [heq]
    rfl

theorem visit_opened_mem (fs : Bytes → Option BFile) (hook : Bytes → Bytes)
    (ro : Bool) :
    ∀ fuel fp rec bc rd lvl lv evs,
      visit fs (some hook) ro fuel fp rec bc rd lvl lv = Except.ok evs →
      ∀ o a w flt, Ev.opened o a w flt ∈ evs → a = hook o ∧ w = !ro := by
  intro fuel
  induction fuel with
  | zero =>
    intro fp rec bc rd lvl lv evs h
    exact absurd h (by simp [visit])
  | succ fuel0 ih =>
    intro fp rec bc rd lvl lv evs h o a w flt hmem
    obtain ⟨f, ec1, ecx, scanEvs, liEvs, recEvs, hfs, hscan, hli, heq, hrec⟩ :=
      visit_ok_decomp fs (some hook) ro fuel0 fp rec bc rd lvl lv evs h
    subst heq
    rcases List.mem_cons.mp hmem with hhead | htail
    · obtain ⟨h1, h2, h3, h4⟩ := Ev.opened.inj hhead
      subst h1
      exact ⟨h2, h3⟩
    · have hscanEvs : ∀ e ∈ scanEvs, ∃ b : Block, True ∧
          e = Ev.yielded b.code "name".toList b.pathVal
            (osDirname (osAbspath fp)) (rd.getD (osDirname (osAbspath fp))) :=
        scanAll_pred f (fun _ => True) bc _ _
          (fun _ _ _ _ _ _ _ => trivial) _ _ ec1 scanEvs hscan
          (fun _ _ _ _ _ => trivial)
      have hliEvs : ∀ e ∈ liEvs, ∃ b : Block, True ∧
          e = Ev.yielded b.code "name".toList b.pathVal
            (osDirname (osAbspath fp)) (rd.getD (osDirname (osAbspath fp))) :=
        scanOne_pred f (fun _ => True) bc ec1 _ _ _ ecx liEvs
          (fun _ _ _ => trivial) (fun _ _ _ _ _ _ _ => trivial) hli
      rcases List.mem_append.mp htail with h123 | h4
      · rcases List.mem_append.mp h123 with h12 | h3
        · rcases List.mem_append.mp h12 with h1 | h2
          · obtain ⟨b, -, hbe⟩ := hscanEvs _ h1
            exact absurd hbe (by simp)
          · have hpn : ∃ p n, Ev.opened o a w flt = Ev.table p n := by
              rcases rec with _ | _
              · simp at h2
              · obtain ⟨ln, -, hln⟩ :=
                  List.mem_map.mp (show Ev.opened o a w flt ∈
                    (libLinksSel f ec1).map (fun ln => Ev.table ln.1 ln.2)
                    by rw [if_pos rfl] at h2; exact h2)
                exact ⟨ln.1, ln.2, hln.symm⟩
            obtain ⟨p, n, hpn2⟩ := hpn
            exact absurd hpn2 (by simp)
        · obtain ⟨b, -, hbe⟩ := hliEvs _ h3
          exact absurd hbe (by simp)
      · rcases hrec with rfl | ⟨reg0, r2, hlv, hlibs⟩
        · simp at h4
        · refine visitLibs_events _ _
            (fun e => ∀ o2 a2 w2 flt2, e = Ev.opened o2 a2 w2 flt2 →
              a2 = hook o2 ∧ w2 = !ro) ?_ _ reg0 r2 recEvs hlibs
            (Ev.opened o a w flt) h4 o a w flt rfl
          intro p rem evs1 hv e he o2 a2 w2 flt2 hee
          subst hee
          exact ih p true (some rem) _ (lvl + 1) none evs1 hv o2 a2 w2 flt2 he

/-! # Claims -/

/-- Claim C1 (code bug): on a cyclic library graph - A links record
GRg from B, whose expansion reaches placeholder OBo linked back from
A - the pack-style walker invocation crashes with an AttributeError
instead of terminating: the recursive call of visit_from_blend
(packer.py lines 195-203) does not pass lib_visit, so the nested call
receives None and line 186 calls .setdefault on None as soon as the
nested file has any library links.  The visited registry is therefore
neither consulted nor updated at any level below the first. -/
theorem claim_C1_crash :
    visit fsAB (some (packRemapPath "/dst".toList)) false 10
      "/base/A.blend".toList true none none 0 (some []) =
    Except.error "AttributeError: NoneType object has no attribute setdefault" := by
  rfl

/-- Counterexample for C2: in the duplicate-spelling run the library
/base/lib.blend is first visited with filter {MAm} (consuming all its
referenced names) and then re-opened with the empty remaining set -
the code recurses unconditionally, with no emptiness check before
the nested visit_from_blend call. -/
theorem claim_C2_counterexample :
    visitC2run = Except.ok evsC2 ∧
    Ev.opened "/base/lib.blend".toList "/base/lib.blend".toList false
      (some {"MAm".toList}) ∈ evsC2 ∧
    Ev.opened "/base/lib.blend".toList "/base/lib.blend".toList false
      (some ∅) ∈ evsC2 :=
  ⟨rfl, by decide, by decide⟩

/-- Claim C9: utils.abspath returns, for a path beginning with the
two-character relative marker, the marker-stripped remainder joined
(os.path.join) onto the base directory - which, in the ordinary case
of a relative remainder and a base directory not ending in a slash,
is base ++ '/' ++ remainder - and returns any path not beginning with
the marker unchanged. -/
theorem claim_C9 (path start : Bytes) :
    (startsSlashSlash path = false → utils_abspath path start = path) ∧
    (startsSlashSlash path = true →
      utils_abspath path start = osJoin start (path.drop 2)) ∧
    (startsSlashSlash path = true → (path.drop 2).head? ≠ some '/' →
      start ≠ [] → start.getLast? ≠ some '/' →
      utils_abspath path start = start ++ '/' :: path.drop 2) := by
  refine ⟨fun h => ?_, fun h => ?_, fun h h1 h2 h3 => ?_⟩
  · simp [utils_abspath, h]
  · simp [utils_abspath, h]
  · simp only [utils_abspath, h, if_true, osJoin]
    rw [if_neg h1, if_neg]
    simp [h2, h3]

/-- Witness for C9 at path //sub/a.png, base /base. -/
theorem claim_C9_witness :
    startsSlashSlash "//sub/a.png".toList = true ∧
    utils_abspath "//sub/a.png".toList "/base".toList =
      "/base".toList ++ '/' :: ("//sub/a.png".toList).drop 2 :=
  ⟨by decide,
   (claim_C9 "//sub/a.png".toList "/base".toList).2.2
     (by decide) (by decide) (by decide) (by decide)⟩

/-- Claim C5: pack's per-reference processing computes the basename as
the final path component after splitting on both slash conventions
(equal to the suffix after the last occurrence of either slash
character), rewrites the stored path to b"//" + basename, and records
(path resolved against the reference's bound directory,
destination-directory/basename) for the copy plan; in particular
//sub/dir/asset.png is rewritten to //asset.png. -/
theorem claim_C5 (baseDirDst basedir pathRel : Bytes) :
    processReference baseDirDst basedir pathRel =
      ('/' :: '/' :: lastSlashComponent pathRel,
       utils_abspath pathRel basedir,
       osJoin baseDirDst (lastSlashComponent pathRel)) ∧
    processReference "/dst".toList "/base".toList "//sub/dir/asset.png".toList =
      ("//asset.png".toList, "/base/sub/dir/asset.png".toList,
       "/dst/asset.png".toList) := by
  constructor
  · simp [processReference, packBase_eq_lastSlashComponent]
  · decide

/-- Claim C7: FilePath.from_block emits exactly one PathReference
over the b'name' path field for an image record and for a
library-link record, and none for a record of any other code (the
walker never passes a DATA block: scanned codes have length 2). -/
theorem claim_C7 (basedir rootdir : Bytes) (b : Block)
    (h : b.code ≠ "DATA".toList) :
    fromBlockEvList basedir rootdir b = Except.ok
      (if b.code = "IM".toList ∨ b.code = "LI".toList
       then [Ev.yielded b.code "name".toList b.pathVal basedir rootdir]
       else []) := by
  simp only [fromBlockEvList, if_neg h]
  split <;> simp_all

/-- Witness for C7 at a concrete image block. -/
theorem claim_C7_witness :
    fromBlockEvList "/b".toList "/r".toList
      { code := "IM".toList, idName := "IMx".toList,
        pathVal := "//tex.png".toList } =
    Except.ok
      (if ("IM".toList = "IM".toList ∨ ("IM".toList : Bytes) = "LI".toList)
       then [Ev.yielded "IM".toList "name".toList "//tex.png".toList
               "/b".toList "/r".toList]
       else []) :=
  claim_C7 "/b".toList "/r".toList _ (by decide)

/-- Counterexample for C3: a mesh with totcol = 2 whose material
array resolves to blocks 40 and 48; expand_ME iterates (prints) both
elements but its yielded sequence is empty, not the two elements the
claim requires. -/
theorem claim_C3_counterexample :
    meC3.totcol = 2 ∧
    expand_ME_run fhC3 meC3 =
      Except.ok ([some 40, some 48], ([] : List Nat)) ∧
    ([] : List Nat).length ≠ 2 := by
  refine ⟨rfl, ?_, by decide⟩
  rfl

/-- Claim C3 (amended): for a mesh whose material count is non-zero,
expand_ME iterates over - reading and printing - each element of the
material-pointer array (array length from the count field, element i
located by striding a pointer-sized step: base + pointer_size * i),
but yields no records at all; for a zero count it reads nothing.  In
every case its yielded sequence is empty. -/
theorem claim_C3_amended (fh : FileH) (b : MeshBlock)
    (hdata : b.mat.code = "DATA".toList) :
    expand_ME_run fh b = Except.ok
      ((if b.totcol ≠ 0 then
          (List.range b.totcol).map (fun i =>
            fh.findBlockFromOffset
              (fh.readPointerAt (b.mat.file_offset + fh.pointer_size * i)))
        else []), ([] : List Nat)) := by
  by_cases h : b.totcol = 0
  · simp [expand_ME_run, h]
  · simp [expand_ME_run, h, iter_array, hdata]

/-- Witness for the amended C3 at the zero-count mesh. -/
theorem claim_C3_witness :
    meC3zero.mat.code = "DATA".toList ∧
    expand_ME_run fhC3 meC3zero = Except.ok
      ((if meC3zero.totcol ≠ 0 then
          (List.range meC3zero.totcol).map (fun i =>
            fhC3.findBlockFromOffset
              (fhC3.readPointerAt
                (meC3zero.mat.file_offset + fhC3.pointer_size * i)))
        else []), ([] : List Nat)) :=
  ⟨rfl, claim_C3_amended fhC3 meC3zero rfl⟩

/-- Claim C10: the staging path computed by pack's remap hook depends
only on the original's basename, so two distinct originals sharing a
basename receive the same staging path, and after the first has been
staged a call for the second performs no copy (the first staging copy
is silently reused). -/
theorem claim_C10 (baseDirDst : Bytes) (st : TempState) (p1 p2 : Bytes)
    (hb : osBasename p1 = osBasename p2) (_hne : p1 ≠ p2) :
    (temp_remap_cb baseDirDst st p1).1 = (temp_remap_cb baseDirDst st p2).1 ∧
    (temp_remap_cb baseDirDst (temp_remap_cb baseDirDst st p1).2 p2).2.copies =
      (temp_remap_cb baseDirDst st p1).2.copies ∧
    (temp_remap_cb baseDirDst (temp_remap_cb baseDirDst st p1).2 p2).1 =
      (temp_remap_cb baseDirDst st p1).1 := by
  have hpath : packRemapPath baseDirDst p1 = packRemapPath baseDirDst p2 := by
    simp [packRemapPath, hb]
  have hfst : (temp_remap_cb baseDirDst st p1).1 =
      (temp_remap_cb baseDirDst st p2).1 := by
    rw [temp_remap_cb_fst, temp_remap_cb_fst, hpath]
  have hmem : packRemapPath baseDirDst p1 ∈
      (temp_remap_cb baseDirDst st p1).2.tempFiles := by
    simp only [temp_remap_cb, packRemapPath]
    split
    · simpa [packRemapPath] using (by assumption :
        osJoin baseDirDst (osBasename p1) ++ ['@'] ∈ st.tempFiles)
    · simp
  have hsecond : temp_remap_cb baseDirDst (temp_remap_cb baseDirDst st p1).2 p2 =
      (packRemapPath baseDirDst p2, (temp_remap_cb baseDirDst st p1).2) := by
    simp only [temp_remap_cb]
    rw [if_pos]
    · rfl
    · have : osJoin baseDirDst (osBasename p2) ++ ['@'] =
          packRemapPath baseDirDst p1 := by
        rw [hpath]; rfl
      rw [this]; exact hmem
  refine ⟨hfst, ?_, ?_⟩
  · rw [hsecond]
  · rw [hsecond, temp_remap_cb_fst, hpath]

/-- Witness for C10: /src/a/x.png and /src/b/x.png share basename
x.png. -/
theorem claim_C10_witness :
    osBasename "/src/a/x.png".toList = osBasename "/src/b/x.png".toList ∧
    ("/src/a/x.png".toList ≠ "/src/b/x.png".toList) ∧
    (temp_remap_cb "/dst".toList ⟨[], []⟩ "/src/a/x.png".toList).1 =
      (temp_remap_cb "/dst".toList ⟨[], []⟩ "/src/b/x.png".toList).1 ∧
    (temp_remap_cb "/dst".toList
        (temp_remap_cb "/dst".toList ⟨[], []⟩ "/src/a/x.png".toList).2
        "/src/b/x.png".toList).2.copies =
      (temp_remap_cb "/dst".toList ⟨[], []⟩ "/src/a/x.png".toList).2.copies :=
  ⟨by decide, by decide,
   (claim_C10 "/dst".toList ⟨[], []⟩ "/src/a/x.png".toList
     "/src/b/x.png".toList (by decide) (by decide)).1,
   (claim_C10 "/dst".toList ⟨[], []⟩ "/src/a/x.png".toList
     "/src/b/x.png".toList (by decide) (by decide)).2.1⟩

/-- Claim C6: pack's finalization moves the root staging copy to the
destination before the copy loop; the copy loop emits, for each plan
entry, exactly one warning when its source is missing (skipping only
that copy) and exactly one copy when it exists, and always runs to
completion over the whole plan. -/
theorem claim_C6 (exists0 : Bytes → Bool) (blendfileDst : Bytes)
    (plan : List (Bytes × Bytes)) :
    (packFinish exists0 blendfileDst plan).head? =
      some (PackEv.movedRoot blendfileDst) ∧
    copyLoop exists0 plan = plan.map (fun e =>
      if exists0 e.1 then PackEv.copied e.1 e.2
      else PackEv.warnMissing e.1) ∧
    (∀ src dst, (src, dst) ∈ plan → exists0 src = false →
      PackEv.warnMissing src ∈ copyLoop exists0 plan ∧
      (∀ d, PackEv.copied src d ∉ copyLoop exists0 plan)) ∧
    (∀ src dst, (src, dst) ∈ plan → exists0 src = true →
      PackEv.copied src dst ∈ copyLoop exists0 plan) ∧
    (∀ src, exists0 src = false →
      (copyLoop exists0 plan).count (PackEv.warnMissing src) =
        (plan.filter (fun e => e.1 = src)).length) := by
  refine ⟨rfl, copyLoop_eq_map exists0 plan, ?_, ?_, ?_⟩
  · intro src dst hmem hmiss
    constructor
    · rw [copyLoop_eq_map]
      exact List.mem_map.mpr ⟨(src, dst), hmem, by simp [hmiss]⟩
    · intro d hcontra
      rw [copyLoop_eq_map] at hcontra
      obtain ⟨⟨s, d2⟩, hm, he⟩ := List.mem_map.mp hcontra
      by_cases hx : exists0 s
      · simp only [hx, if_pos] at he
        obtain ⟨h1, -⟩ := PackEv.copied.inj he
        rw [h1] at hx
        rw [hmiss] at hx
        exact Bool.false_ne_true hx
      · simp [hx] at he
  · intro src dst hmem hex
    rw [copyLoop_eq_map]
    exact List.mem_map.mpr ⟨(src, dst), hmem, by simp [hex]⟩
  · intro src hmiss
    exact copyLoop_count_warn exists0 src hmiss plan

/-- Witness for C6 at a concrete two-entry plan with one missing
source. -/
theorem claim_C6_witness :
    (packFinish exC6 "/d/out.blend".toList planC6).head? =
      some (PackEv.movedRoot "/d/out.blend".toList) ∧
    copyLoop exC6 planC6 = planC6.map (fun e =>
      if exC6 e.1 then PackEv.copied e.1 e.2
      else PackEv.warnMissing e.1) ∧
    (∀ src dst, (src, dst) ∈ planC6 → exC6 src = false →
      PackEv.warnMissing src ∈ copyLoop exC6 planC6 ∧
      (∀ d, PackEv.copied src d ∉ copyLoop exC6 planC6)) ∧
    (∀ src dst, (src, dst) ∈ planC6 → exC6 src = true →
      PackEv.copied src dst ∈ copyLoop exC6 planC6) ∧
    (∀ src, exC6 src = false →
      (copyLoop exC6 planC6).count (PackEv.warnMissing src) =
        (planC6.filter (fun e => e.1 = src)).length) :=
  claim_C6 exC6 "/d/out.blend".toList planC6

/-- Claim C4: in a walker run driven by pack's remap hook, every
open_blend call opens exactly the path the hook returns for the
original - destination-directory/basename + '@' - at every recursion
level; consequently a path that does not end in the staging suffix
(every original file) is never opened, in particular never in write
mode, so originals are byte-for-byte unchanged when pack completes. -/
theorem claim_C4 (baseDirDst : Bytes) (fs : Bytes → Option BFile) (ro : Bool)
    (fuel : Nat) (fp : Bytes) (rec : Bool) (bc : Option NameSet)
    (rd : Option Bytes) (lvl : Nat) (lv : Option Registry) (evs : List Ev)
    (h : visit fs (some (packRemapPath baseDirDst)) ro fuel fp rec bc rd lvl lv =
      Except.ok evs) :
    (∀ o a w flt, Ev.opened o a w flt ∈ evs →
      a = osJoin baseDirDst (osBasename o) ++ ['@']) ∧
    (∀ p, p.getLast? ≠ some '@' →
      ∀ o w flt, Ev.opened o p w flt ∉ evs) := by
  have hmain := visit_opened_mem fs (packRemapPath baseDirDst) ro fuel fp rec
    bc rd lvl lv evs h
  constructor
  · intro o a w flt hm
    exact (hmain o a w flt hm).1
  · intro p hp o w flt hm
    apply hp
    rw [(hmain o p w flt hm).1]
    exact packRemapPath_getLast baseDirDst o

theorem claim_C4_witness :
    visitC4run = Except.ok evsC4w ∧
    ((∀ o a w flt, Ev.opened o a w flt ∈ evsC4w →
       a = osJoin "/dst".toList (osBasename o) ++ ['@']) ∧
     (∀ p, p.getLast? ≠ some '@' →
       ∀ o w flt, Ev.opened o p w flt ∉ evsC4w)) :=
  ⟨rfl, claim_C4 "/dst".toList fsC4w false 3 "/src/root.blend".toList true
    none none 0 (some []) evsC4w rfl⟩

/-- Claim C8: within one visit_from_blend call on one well-formed
file (expansion rules never surface a library-link block), the
event sequence of that call is the opened event followed by the scan
emissions s (yields, none of them library links), then the library
table scan t (table entries only, so the table is fully built), then
the library-link emissions l (LI yields only), then the recursion's
events r.  Thus every non-library PathReference of the file precedes
every library-link PathReference, and the table is complete before
any library path could be rewritten. -/
theorem claim_C8 (fs : Bytes → Option BFile) (remap : Option (Bytes → Bytes))
    (ro : Bool) (fuel : Nat) (fp : Bytes) (rec : Bool) (bc : Option NameSet)
    (rd : Option Bytes) (lvl : Nat) (lv : Option Registry) (f : BFile)
    (evs : List Ev)
    (hf : fs (remapApply remap fp) = some f)
    (hkids : kidsNotLI f = true)
    (h : visit fs remap ro fuel fp rec bc rd lvl lv = Except.ok evs) :
    ∃ s t l r, evs = Ev.opened fp (remapApply remap fp) (!ro) bc ::
        (s ++ t ++ l ++ r) ∧
      (∀ e ∈ s, evIsYield e = true ∧ evLIYield e = false) ∧
      (∀ e ∈ t, evTable e = true) ∧
      (∀ e ∈ l, evLIYield e = true) := by
  cases fuel with
  | zero => exact absurd h (by simp [visit])
  | succ fuel0 =>
    obtain ⟨f2, ec1, ecx, scanEvs, liEvs, recEvs, hfs, hscan, hli, heq, hrec⟩ :=
      visit_ok_decomp fs remap ro fuel0 fp rec bc rd lvl lv evs h
    have hff : f2 = f := by
      rw [hf] at hfs
      exact (Option.some.inj hfs).symm
    subst hff
    have hclo : ∀ b ∈ f2.blocks, (fun b => b.code ≠ "LI".toList) b →
        ∀ ks, expandKids f2 b = some ks → ∀ k ∈ ks,
        (fun b => b.code ≠ "LI".toList) k := by
      intro b hb _ ks hks k hk
      have := (List.all_eq_true.mp hkids) b hb
      rw [hks] at this
      exact of_decide_eq_true ((List.all_eq_true.mp this) k hk)
    refine ⟨scanEvs,
      (if rec then (libLinksSel f2 ec1).map (fun ln => Ev.table ln.1 ln.2)
       else []), liEvs, recEvs, heq, ?_, ?_, ?_⟩
    · intro e he
      obtain ⟨b, hbP, hbe⟩ := scanAll_pred f2
        (fun b => b.code ≠ "LI".toList) bc _ _ hclo _ _ ec1 scanEvs hscan
        (fun c hc b hb hbc => by
          rw [List.mem_filter] at hc
          rw [hbc]
          exact scanCodeOk_ne_LI c hc.2) e he
      subst hbe
      exact ⟨rfl, decide_eq_false hbP⟩
    · intro e he
      rcases rec with _ | _
      · simp at he
      · obtain ⟨ln, -, hln⟩ := List.mem_map.mp
          (show e ∈ (libLinksSel f2 ec1).map (fun ln => Ev.table ln.1 ln.2)
            by simpa using he)
        rw [← hln]
        rfl
    · intro e he
      obtain ⟨b, hbP, hbe⟩ := scanOne_pred f2
        (fun b => b.code = "LI".toList) bc ec1 _ _ _ ecx liEvs
        (fun b _ hbc => hbc)
        (fun b hb hP ks hks => absurd hks (by rw [expandKids_LI f2 b hP]; simp))
        hli e he
      subst hbe
      exact decide_eq_true hbP

theorem claim_C8_witness :
    fsC2 (remapApply none "/base/A.blend".toList) = some fileA2 ∧
    kidsNotLI fileA2 = true ∧
    (∃ s t l r, evsC2 = Ev.opened "/base/A.blend".toList
        (remapApply none "/base/A.blend".toList) (!true) none ::
        (s ++ t ++ l ++ r) ∧
      (∀ e ∈ s, evIsYield e = true ∧ evLIYield e = false) ∧
      (∀ e ∈ t, evTable e = true) ∧
      (∀ e ∈ l, evLIYield e = true)) :=
  ⟨rfl, by decide,
   claim_C8 fsC2 none true 10 "/base/A.blend".toList true none none 0
     (some []) fileA2 evsC2 rfl (by decide) rfl⟩

/-- Claim C2 (amended): in visit_from_blend's recursion loop, for
every (library path, referenced-names) pair the names already in the
visited registry for the library's absolute path are subtracted from
the filter, but the recursive visit happens unconditionally - the
loop recurses with type_filter = the remaining set even when it is
empty, re-opening a fully consumed library (the empty filter merely
makes that visit expand nothing); and every library in the table is
opened by its loop iteration. -/
theorem claim_C2_amended (fs : Bytes → Option BFile)
    (remap : Option (Bytes → Bytes)) (ro : Bool) (fuel : Nat)
    (basedir rootdir : Bytes) (lvl : Nat) (reg : Registry) (table : LibTable)
    (r2 : Registry) (evs : List Ev)
    (h : visitLibs basedir
      (fun p remaining => visit fs remap ro fuel p true (some remaining)
        (some rootdir) (lvl + 1) none) reg table = Except.ok (r2, evs)) :
    (∀ pr ∈ table, ∃ w flt,
      Ev.opened (utils_abspath pr.1 basedir)
        (remapApply remap (utils_abspath pr.1 basedir)) w flt ∈ evs) ∧
    (∀ lp names rest, table = (lp, names) :: rest →
      ∃ evs1 evs2, evs = evs1 ++ evs2 ∧
        visit fs remap ro fuel (utils_abspath lp basedir) true
          (some (names \ regGet reg (utils_abspath lp basedir)))
          (some rootdir) (lvl + 1) none = Except.ok evs1 ∧
        evs1.head? = some (Ev.opened (utils_abspath lp basedir)
          (remapApply remap (utils_abspath lp basedir)) (!ro)
          (some (names \ regGet reg (utils_abspath lp basedir))))) := by
  constructor
  · induction table generalizing reg evs with
    | nil =>
      intro pr hpr
      simp at hpr
    | cons hd rest ih =>
      obtain ⟨libPath, names⟩ := hd
      simp only [visitLibs] at h
      cases h1 : visit fs remap ro fuel (utils_abspath libPath basedir) true
          (some (names \ regGet reg (utils_abspath libPath basedir)))
          (some rootdir) (lvl + 1) none with
      | error err =>
        simp only [h1] at h
        exact absurd h (by simp)
      | ok evs1 =>
        simp only [h1] at h
        cases h2 : visitLibs basedir
            (fun p remaining => visit fs remap ro fuel p true (some remaining)
              (some rootdir) (lvl + 1) none)
            (regSet reg (utils_abspath libPath basedir)
              (regGet reg (utils_abspath libPath basedir) ∪
               (names \ regGet reg (utils_abspath libPath basedir)))) rest with
        | error err =>
          simp only [h2] at h
          exact absurd h (by simp)
        | ok res =>
          obtain ⟨reg2, evs2⟩ := res
          simp only [h2, Except.ok.injEq, Prod.mk.injEq] at h
          obtain ⟨rfl, rfl⟩ := h
          intro pr hpr
          rcases List.mem_cons.mp hpr with rfl | hpr2
          · have hh := visit_ok_head fs remap ro fuel _ true _ _ _ _ evs1 h1
            cases evs1 with
            | nil => simp at hh
            | cons e0 tl =>
              refine ⟨!ro, some (names \ regGet reg
                (utils_abspath libPath basedir)), ?_⟩
              simp only [List.head?_cons, Option.some.injEq] at hh
              subst hh
              exact List.mem_append_left _ (List.mem_cons_self _ _)
          · obtain ⟨w, flt, hmem⟩ := ih _ _ h2 pr hpr2
            exact ⟨w, flt, List.mem_append_right _ hmem⟩
  · intro lp names rest htab
    subst htab
    simp only [visitLibs] at h
    cases h1 : visit fs remap ro fuel (utils_abspath lp basedir) true
        (some (names \ regGet reg (utils_abspath lp basedir)))
        (some rootdir) (lvl + 1) none with
    | error err =>
      simp only [h1] at h
      exact absurd h (by simp)
    | ok evs1 =>
      simp only [h1] at h
      cases h2 : visitLibs basedir
          (fun p remaining => visit fs remap ro fuel p true (some remaining)
            (some rootdir) (lvl + 1) none)
          (regSet reg (utils_abspath lp basedir)
            (regGet reg (utils_abspath lp basedir) ∪
             (names \ regGet reg (utils_abspath lp basedir)))) rest with
      | error err =>
        simp only [h2] at h
        exact absurd h (by simp)
      | ok res =>
        obtain ⟨reg2, evs2⟩ := res
        simp only [h2, Except.ok.injEq, Prod.mk.injEq] at h
        obtain ⟨rfl, rfl⟩ := h
        exact ⟨evs1, evs2, rfl, rfl,
          visit_ok_head fs remap ro fuel _ true _ _ _ _ evs1 h1⟩

/-- Witness for the amended C2 at the concrete one-pair table of the
duplicate-spelling scenario. -/
theorem claim_C2_amended_witness :
    visitLibsC2run = Except.ok resC2L ∧
    ((∀ pr ∈ ([("//lib.blend".toList, ({"MAm".toList} : NameSet))] : LibTable),
      ∃ w flt, Ev.opened (utils_abspath pr.1 "/base".toList)
        (remapApply none (utils_abspath pr.1 "/base".toList)) w flt ∈
          resC2L.2) ∧
     (∀ lp names rest,
      ([("//lib.blend".toList, ({"MAm".toList} : NameSet))] : LibTable) =
        (lp, names) :: rest →
      ∃ evs1 evs2, resC2L.2 = evs1 ++ evs2 ∧
        visit fsC2 none true 5 (utils_abspath lp "/base".toList) true
          (some (names \ regGet [] (utils_abspath lp "/base".toList)))
          (some "/base".toList) (0 + 1) none = Except.ok evs1 ∧
        evs1.head? = some (Ev.opened (utils_abspath lp "/base".toList)
          (remapApply none (utils_abspath lp "/base".toList)) (!true)
          (some (names \ regGet [] (utils_abspath lp "/base".toList)))))) :=
  ⟨rfl, claim_C2_amended fsC2 none true 5 "/base".toList "/base".toList 0 []
    [("//lib.blend".toList, {"MAm".toList})] resC2L.1 resC2L.2 rfl⟩

end Packer
